import Mathlib

/-!
Verification of the Smart-Study-Scheduler schedule core.

The definitions below are a shallow embedding of the schedule model
(src/server/models/User.ts, third document: the Schedule mongoose schema
with its virtuals and methods) and of the schedule HTTP routes
(src/unnamed/part_001, the /api/schedules router).

Times of day: the source stores HH:MM strings validated by the regex
([0-1]?[0-9]|2[0-3]):[0-5][0-9]; such a string is exactly a pair of an
hour and a minute field, embedded here as the structure HM.  The source
helper parseTime converts a string to a millisecond timestamp on a fixed
date, a strictly monotone affine image of (hours * 60 + minutes); since
the code only ever compares and sorts these values, parseTime is embedded
as minutes since midnight.
-/

set_option maxHeartbeats 1000000

namespace SmartStudy

/-- An HH:MM wall-clock time of day, the shape guaranteed by the time regex
of the source. -/
structure HM where
  hours : Nat
  minutes : Nat
deriving DecidableEq

/-- parseTime of the Schedule model (User.ts, scheduleSchema.methods.parseTime):
converts an HH:MM value to a comparable number. -/
def parseTime (t : HM) : Nat := t.hours * 60 + t.minutes

/-- The type enum of a time block (schema enum study / break / exercise / other). -/
inductive BlockType where
  | study
  | breakTime
  | exercise
  | other
deriving DecidableEq

/-- The priority enum of a time block (schema enum low / medium / high). -/
inductive Priority where
  | low
  | medium
  | high
deriving DecidableEq

/-- One embedded time block of a schedule (scheduleSchema.timeBlocks entries).
Each embedded document carries a Mongo _id, modelled as the id field, which
removeTimeBlock matches against. -/
structure TimeBlock where
  id : String
  dayOfWeek : Nat
  startTime : HM
  endTime : HM
  subject : String
  taskId : Option String
  type : BlockType
  priority : Priority
  notes : Option String
deriving DecidableEq

/-- parseTime of the startTime of a block. -/
def startMin (b : TimeBlock) : Nat := parseTime b.startTime

/-- parseTime of the endTime of a block. -/
def endMin (b : TimeBlock) : Nat := parseTime b.endTime

/-- The recurrence frequency enum (daily / weekly / monthly). -/
inductive Frequency where
  | daily
  | weekly
  | monthly
deriving DecidableEq

/-- Calendar dates are embedded as day numbers with weekday d % 7,
0 = Sunday; day 1 is 2024-01-01 (a Monday, and 2023-12-31 / day 0 was a
Sunday), so the numbering is consistent with the real calendar around the
dates the spec exercises. -/
def weekdayOf (d : Nat) : Nat := d % 7

/-- The recurring sub-document of a schedule. -/
structure RecurrenceRule where
  isRecurring : Bool
  frequency : Frequency
  startDate : Nat
  endDate : Option Nat
  daysOfWeek : Option (List Nat)
deriving DecidableEq

/-- A replacement block inside a modify exception (schema
exceptions.modifiedTimeBlocks entries: no dayOfWeek, no priority). -/
structure ModBlock where
  startTime : HM
  endTime : HM
  subject : String
  type : BlockType
deriving DecidableEq

/-- The action enum of a schedule exception (skip / modify). -/
inductive ExAction where
  | skip
  | modify
deriving DecidableEq

/-- One embedded schedule exception (scheduleSchema.exceptions entries). -/
structure ScheduleException where
  date : Nat
  reason : String
  action : ExAction
  modifiedTimeBlocks : List ModBlock
deriving DecidableEq

/-- A stored schedule document (scheduleSchema). -/
structure Schedule where
  userId : String
  name : String
  description : Option String
  isActive : Bool
  timeBlocks : List TimeBlock
  recurring : RecurrenceRule
  exceptions : List ScheduleException
deriving DecidableEq

/-- The comparator the source sorts with: ascending parseTime of startTime. -/
def leStart (a b : TimeBlock) : Prop := startMin a ≤ startMin b

instance : DecidableRel leStart :=
  fun a b => inferInstanceAs (Decidable (startMin a ≤ startMin b))

instance : IsTotal TimeBlock leStart :=
  ⟨fun a b => Nat.le_total (startMin a) (startMin b)⟩

instance : IsTrans TimeBlock leStart :=
  ⟨fun _ _ _ hab hbc => Nat.le_trans hab hbc⟩

/-- The per-day sort step of the conflict scans:
blocks.sort((a, b) => parseTime(a.startTime) - parseTime(b.startTime)). -/
def sortByStart (l : List TimeBlock) : List TimeBlock :=
  l.insertionSort leStart

/-- The blocksByDay grouping of the conflict scans: the blocks whose
dayOfWeek equals d, in stored order. -/
def dayGroup (blocks : List TimeBlock) (d : Nat) : List TimeBlock :=
  blocks.filter fun b => b.dayOfWeek == d

/-- The pairwise walk of the hasConflicts virtual: true when some adjacent
pair of the (sorted) list satisfies currentEnd > nextStart. -/
def adjacentOverlap : List TimeBlock → Bool
  | b1 :: b2 :: rest =>
    decide (endMin b1 > startMin b2) || adjacentOverlap (b2 :: rest)
  | _ => false

/-- The hasConflicts virtual of the Schedule model, over a block list:
group by dayOfWeek, sort each group by start time, and report true when
some adjacent pair overlaps (iterating over each day that has blocks). -/
def hasConflicts (blocks : List TimeBlock) : Bool :=
  blocks.any fun b => adjacentOverlap (sortByStart (dayGroup blocks b.dayOfWeek))

/-- The hasConflicts virtual on a schedule document. -/
def Schedule.hasConflicts (s : Schedule) : Bool :=
  SmartStudy.hasConflicts s.timeBlocks

/-- The 400 payload the create/update routes answer a conflict with:
message names the day, conflictingBlocks carries the two blocks. -/
structure ConflictError where
  day : Nat
  b1 : TimeBlock
  b2 : TimeBlock
deriving DecidableEq

/-- The first adjacent overlapping pair of a (sorted) one-day block list,
as reported by the route loop: for i, if blocks[i].endTime >
blocks[i+1].startTime, answer with that pair. -/
def firstOverlap (day : Nat) : List TimeBlock → Option ConflictError
  | b1 :: b2 :: rest =>
    if endMin b1 > startMin b2 then some ⟨day, b1, b2⟩
    else firstOverlap day (b2 :: rest)
  | _ => none

/-- The days that occur in a block list, each once, ascending: the keys of
the blocksByDay object (JavaScript iterates integer-like keys in ascending
numeric order). -/
def daysOf (blocks : List TimeBlock) : List Nat :=
  ((blocks.map fun b => b.dayOfWeek).dedup).insertionSort (· ≤ ·)

/-- The route conflict scan over a list of days: first day with a
conflicting sorted pair wins. -/
def findConflictDays (blocks : List TimeBlock) : List Nat → Option ConflictError
  | [] => none
  | d :: ds =>
    match firstOverlap d (sortByStart (dayGroup blocks d)) with
    | some e => some e
    | none => findConflictDays blocks ds

/-- The overlap validation of POST /api/schedules and PUT /api/schedules/:id:
group the submitted blocks by day, sort each group by start time, and answer
the first adjacent pair with currentEnd > nextStart, if any. -/
def findConflict (blocks : List TimeBlock) : Option ConflictError :=
  findConflictDays blocks (daysOf blocks)

/-- The HH:MM regex of the route validators: hour 0-23, minute 0-59. -/
def validHM (t : HM) : Bool := t.hours ≤ 23 && t.minutes ≤ 59

/-- The per-block express-validator checks shared by POST /api/schedules and
PUT /:id/time-blocks: dayOfWeek an integer 0-6, both times HH:MM, subject
non-empty (type and priority are checked against their enums, which the
typed embedding makes automatic). -/
def validBlockFields (b : TimeBlock) : Bool :=
  b.dayOfWeek ≤ 6 && validHM b.startTime && validHM b.endTime && b.subject != ""

/-- The request body of POST /api/schedules. -/
structure CreateInput where
  name : String
  description : Option String
  timeBlocks : List TimeBlock
  recurring : RecurrenceRule
deriving DecidableEq

/-- The express-validator gate of POST /api/schedules: non-empty name, at
least one time block, the fields of every block valid (recurring.startDate being
a date is automatic in the typed embedding). -/
def validCreateInput (inp : CreateInput) : Bool :=
  inp.name != "" && !inp.timeBlocks.isEmpty && inp.timeBlocks.all validBlockFields

/-- An error answered by a schedule route: a 400 validator payload, or the
400 overlap payload carrying the conflicting pair and day. -/
inductive ScheduleError where
  | invalid
  | conflict (e : ConflictError)
deriving DecidableEq

/-- POST /api/schedules: run the validator gate, then the overlap
validation; on success construct the document (isActive defaults true,
exceptions default empty) and answer 201 with it. -/
def createSchedule (userId : String) (inp : CreateInput) : Except ScheduleError Schedule :=
  if validCreateInput inp then
    match findConflict inp.timeBlocks with
    | some e => .error (.conflict e)
    | none =>
      .ok { userId := userId
            name := inp.name
            description := inp.description
            isActive := true
            timeBlocks := inp.timeBlocks
            recurring := inp.recurring
            exceptions := [] }
  else .error .invalid

/-- The request body of PUT /api/schedules/:id: any subset of the
updatable fields. -/
structure UpdateInput where
  name : Option String
  description : Option String
  timeBlocks : Option (List TimeBlock)
  recurring : Option RecurrenceRule
  isActive : Option Bool
deriving DecidableEq

/-- The express-validator gate of PUT /api/schedules/:id: all checks are
optional, applying only to supplied fields. -/
def validUpdateInput (u : UpdateInput) : Bool :=
  (match u.name with
   | some n => n != ""
   | none => true) &&
  (match u.timeBlocks with
   | some tbs => !tbs.isEmpty && tbs.all validBlockFields
   | none => true)

/-- The findByIdAndUpdate step of PUT /api/schedules/:id: $set each
supplied field, leaving the rest unchanged. -/
def applyUpdate (s : Schedule) (u : UpdateInput) : Schedule :=
  { s with
    name := u.name.getD s.name
    description := match u.description with
      | some d => some d
      | none => s.description
    timeBlocks := u.timeBlocks.getD s.timeBlocks
    recurring := u.recurring.getD s.recurring
    isActive := u.isActive.getD s.isActive }

/-- PUT /api/schedules/:id: run the validator gate; if timeBlocks is
supplied, run the overlap validation on the supplied list (the stored
blocks play no part); on success $set the supplied fields. -/
def updateSchedule (s : Schedule) (u : UpdateInput) : Except ScheduleError Schedule :=
  if validUpdateInput u then
    match u.timeBlocks with
    | some tbs =>
      match findConflict tbs with
      | some e => .error (.conflict e)
      | none => .ok (applyUpdate s u)
    | none => .ok (applyUpdate s u)
  else .error .invalid

/-- The stored document after the PUT /api/schedules/:id handler ran: on
any 400 the handler returns before findByIdAndUpdate, so the stored
schedule is untouched. -/
def updateEndpoint (s : Schedule) (u : UpdateInput) : Schedule :=
  match updateSchedule s u with
  | .ok s2 => s2
  | .error _ => s

/-- PUT /api/schedules/:id/time-blocks combined with the addTimeBlock
model method: the route checks only the fields of the block itself, then the
method pushes the block onto timeBlocks and saves. -/
def addTimeBlock (s : Schedule) (b : TimeBlock) : Except ScheduleError Schedule :=
  if validBlockFields b then
    .ok { s with timeBlocks := s.timeBlocks ++ [b] }
  else .error .invalid

/-- The removeTimeBlock model method: keep every block whose _id differs
from blockId. -/
def removeTimeBlock (s : Schedule) (blockId : String) : Schedule :=
  { s with timeBlocks := s.timeBlocks.filter fun b => b.id != blockId }

/-- The toggleActive model method: flip isActive, touch nothing else. -/
def toggleActive (s : Schedule) : Schedule :=
  { s with isActive := !s.isActive }

/-- The overlap relation of the spec: open time-of-day intervals, each
start of each block strictly before the end of the other. -/
def timeOverlap (a b : TimeBlock) : Prop :=
  startMin a < endMin b ∧ startMin b < endMin a

/-- No-conflict relation between two stored blocks: when on the same day,
their intervals do not overlap. -/
def dayRel (a b : TimeBlock) : Prop :=
  a.dayOfWeek = b.dayOfWeek → ¬ timeOverlap a b

/-- The notion the spec has of a conflicted block collection: two blocks at
distinct positions share a dayOfWeek and their open intervals overlap. -/
def SpecConflict (blocks : List TimeBlock) : Prop :=
  ∃ i j : Fin blocks.length, i ≠ j ∧
    (blocks.get i).dayOfWeek = (blocks.get j).dayOfWeek ∧
    startMin (blocks.get i) < endMin (blocks.get j) ∧
    startMin (blocks.get j) < endMin (blocks.get i)

instance (blocks : List TimeBlock) : Decidable (SpecConflict blocks) := by
  unfold SpecConflict
  infer_instance

/-- Modelled from the spec: projectOccurrences and its supporting pieces
are described in the spec only ("not present as a single call in the
original"); the repository has no such function.  The definitions below
follow the wording of the spec.  The effective blocks of an occurrence lose
dayOfWeek and priority, matching the modifiedTimeBlocks shape they may be
substituted by. -/
def toEff (b : TimeBlock) : ModBlock :=
  { startTime := b.startTime
    endTime := b.endTime
    subject := b.subject
    type := b.type }

/-- Modelled from the spec: whether a candidate date is allowed by
frequency / daysOfWeek.  daily allows every date; weekly restricts to the
listed weekdays when daysOfWeek is present; the spec leaves monthly
recurrence unspecified, so it is modelled as a 30-day cycle anchored at
startDate (no claim depends on it). -/
def allowedDate (r : RecurrenceRule) (d : Nat) : Bool :=
  match r.frequency with
  | .daily => true
  | .weekly =>
    match r.daysOfWeek with
    | some days => days.contains (weekdayOf d)
    | none => true
  | .monthly => d % 30 == r.startDate % 30

/-- Modelled from the spec: a concrete calendar occurrence, a date plus
its effective blocks. -/
structure Occurrence where
  date : Nat
  blocks : List ModBlock
deriving DecidableEq

/-- Modelled from the spec: the occurrence a schedule produces on one
candidate date — none when the date is not allowed or a skip exception
matches; the modified blocks when a modify exception matches; otherwise
the normal blocks filtered to the matching weekday. -/
def occurrenceOn (s : Schedule) (d : Nat) : Option Occurrence :=
  if allowedDate s.recurring d then
    match s.exceptions.find? (fun ex => ex.date == d) with
    | some ex =>
      match ex.action with
      | .skip => none
      | .modify => some { date := d, blocks := ex.modifiedTimeBlocks }
    | none =>
      some { date := d
             blocks := (s.timeBlocks.filter fun b => b.dayOfWeek == weekdayOf d).map toEff }
  else none

/-- The day numbers from lo to hi inclusive. -/
def datesBetween (lo hi : Nat) : List Nat :=
  (List.range (hi + 1 - lo)).map fun i => lo + i

/-- Modelled from the spec: projectOccurrences over an inclusive date
range, clipped to [recurring.startDate, recurring.endDate when present]. -/
def projectOccurrences (s : Schedule) (lo hi : Nat) : List Occurrence :=
  let lo2 := max lo s.recurring.startDate
  let hi2 := match s.recurring.endDate with
    | some e => min hi e
    | none => hi
  (datesBetween lo2 hi2).filterMap fun d => occurrenceOn s d

/-- Equality of route results is decidable (used only to evaluate the
concrete examples below). -/
instance {ε α : Type} [DecidableEq ε] [DecidableEq α] : DecidableEq (Except ε α) :=
  fun a b => by
    cases a <;> cases b
    case error.error x y =>
      exact decidable_of_iff (x = y) (by constructor <;> intro h <;> simp_all)
    case ok.ok x y =>
      exact decidable_of_iff (x = y) (by constructor <;> intro h <;> simp_all)
    all_goals exact isFalse (fun h => by cases h)

/-- A concrete block for the examples: given id, day, and start/end times. -/
def mkBlock (i : String) (day sh sm eh em : Nat) : TimeBlock :=
  { id := i
    dayOfWeek := day
    startTime := ⟨sh, sm⟩
    endTime := ⟨eh, em⟩
    subject := "Math"
    taskId := none
    type := .study
    priority := .medium
    notes := none }

/-- A stock recurrence rule for the examples: weekly from day 1
(2024-01-01, a Monday), restricted to Mondays. -/
def demoRec : RecurrenceRule :=
  { isRecurring := true
    frequency := .weekly
    startDate := 1
    endDate := none
    daysOfWeek := some [1] }

/-- A Tuesday schedule whose two blocks overlap (09:00-10:30 and 10:00-11:00). -/
def c1Sched : Schedule :=
  { userId := "u1", name := "Tue", description := none, isActive := true,
    timeBlocks := [mkBlock "a" 2 9 0 10 30, mkBlock "b" 2 10 0 11 0],
    recurring := demoRec, exceptions := [] }

/-- A create request with two overlapping Monday blocks (09:00-10:00 and
09:30-10:30). -/
def c2Input : CreateInput :=
  { name := "Plan", description := none,
    timeBlocks := [mkBlock "m1" 1 9 0 10 0, mkBlock "m2" 1 9 30 10 30],
    recurring := demoRec }

/-- A create request with two back-to-back Monday blocks (09:00-10:00 and
10:00-11:00). -/
def backToBackInput : CreateInput :=
  { name := "Plan", description := none,
    timeBlocks := [mkBlock "m1" 1 9 0 10 0, mkBlock "m2" 1 10 0 11 0],
    recurring := demoRec }

/-- The schedule the back-to-back request creates for user u2. -/
def backToBackResult : Schedule :=
  { userId := "u2", name := "Plan", description := none, isActive := true,
    timeBlocks := backToBackInput.timeBlocks, recurring := demoRec, exceptions := [] }

/-- A schedule holding one Monday 09:00-10:00 block. -/
def c3Base : Schedule :=
  { userId := "u3", name := "Mon", description := none, isActive := true,
    timeBlocks := [mkBlock "a" 1 9 0 10 0], recurring := demoRec, exceptions := [] }

/-- A Monday 09:30-10:30 block, overlapping the block of c3Base. -/
def c3New : TimeBlock := mkBlock "b" 1 9 30 10 30

/-- c3Base after the overlapping block was appended. -/
def c3After : Schedule := { c3Base with timeBlocks := c3Base.timeBlocks ++ [c3New] }

/-- A block whose startTime (10:00) is after its endTime (09:00): both are
syntactically valid HH:MM times, so the route validators accept it. -/
def c4Bad : TimeBlock := mkBlock "z" 1 10 0 9 0

/-- A create request carrying only the negative-duration block. -/
def c4Input : CreateInput :=
  { name := "Plan", description := none, timeBlocks := [c4Bad], recurring := demoRec }

/-- The schedule the negative-duration request creates for user u4. -/
def c4Created : Schedule :=
  { userId := "u4", name := "Plan", description := none, isActive := true,
    timeBlocks := [c4Bad], recurring := demoRec, exceptions := [] }

/-- An empty-ish schedule the negative-duration block is added to. -/
def c4Base : Schedule :=
  { userId := "u4", name := "Base", description := none, isActive := true,
    timeBlocks := [mkBlock "w" 3 9 0 10 0], recurring := demoRec, exceptions := [] }

/-- A conflict-free stored schedule (one Wednesday block). -/
def c5Stored : Schedule :=
  { userId := "u5", name := "Wed", description := none, isActive := true,
    timeBlocks := [mkBlock "w" 3 9 0 10 0], recurring := demoRec, exceptions := [] }

/-- A replacement block list with a same-day overlap. -/
def c5Blocks : List TimeBlock := [mkBlock "f1" 5 9 0 10 0, mkBlock "f2" 5 9 30 10 30]

/-- An update supplying only the overlapping block list. -/
def c5Update : UpdateInput :=
  { name := none, description := none, timeBlocks := some c5Blocks,
    recurring := none, isActive := none }

/-- A schedule whose single block has id a. -/
def c6Sched : Schedule :=
  { userId := "u6", name := "One", description := none, isActive := true,
    timeBlocks := [mkBlock "a" 1 9 0 10 0], recurring := demoRec, exceptions := [] }

/-- Two overlapping Thursday blocks in one order. -/
def c7A : Schedule :=
  { userId := "u7", name := "Thu", description := none, isActive := true,
    timeBlocks := [mkBlock "x" 4 9 0 10 30, mkBlock "y" 4 10 0 11 0],
    recurring := demoRec, exceptions := [] }

/-- The same two Thursday blocks in the opposite order. -/
def c7B : Schedule := { c7A with timeBlocks := c7A.timeBlocks.reverse }

/-- A schedule with overlapping Monday blocks, active, no exceptions. -/
def c9A : Schedule :=
  { userId := "u9", name := "A", description := none, isActive := true,
    timeBlocks := [mkBlock "m1" 1 9 0 10 0, mkBlock "m2" 1 9 30 10 30],
    recurring := demoRec, exceptions := [] }

/-- The same timeBlocks under a different name, description, active flag,
recurrence and exception list. -/
def c9B : Schedule :=
  { userId := "u9b", name := "B", description := some "other", isActive := false,
    timeBlocks := c9A.timeBlocks,
    recurring := { isRecurring := false, frequency := .daily, startDate := 40,
                   endDate := some 50, daysOfWeek := none },
    exceptions := [{ date := 41, reason := "off", action := .skip,
                     modifiedTimeBlocks := [] }] }

/-- A stored schedule whose blocks already overlap on Monday. -/
def c10Stored : Schedule :=
  { userId := "u10", name := "Clash", description := none, isActive := true,
    timeBlocks := [mkBlock "m1" 1 9 0 10 0, mkBlock "m2" 1 9 30 10 30],
    recurring := demoRec, exceptions := [] }

/-- An update that does not supply timeBlocks (only flips isActive). -/
def c10Update : UpdateInput :=
  { name := none, description := none, timeBlocks := none,
    recurring := none, isActive := some false }

/-- The Monday 09:00-10:00 study block of the projection scenario. -/
def c8Block : TimeBlock := mkBlock "mb" 1 9 0 10 0

/-- The skip exception of the projection scenario, on day 8 (2024-01-08). -/
def c8Skip : ScheduleException :=
  { date := 8, reason := "away", action := .skip, modifiedTimeBlocks := [] }

/-- The weekly Monday schedule of the projection scenario, starting day 1
(2024-01-01) with one skip exception on day 8. -/
def c8Sched : Schedule :=
  { userId := "u8", name := "Weekly", description := none, isActive := true,
    timeBlocks := [c8Block], recurring := demoRec, exceptions := [c8Skip] }

/-! Helper lemmas about the conflict scans. -/

theorem timeOverlap_not_symm : Symmetric fun a b => ¬ timeOverlap a b := by
  intro a b h hov
  exact h ⟨hov.2, hov.1⟩

theorem dayRel_symm : Symmetric dayRel := by
  intro a b h hday hov
  exact h hday.symm ⟨hov.2, hov.1⟩

theorem pairwise_of_adjacentOverlap_false :
    ∀ l : List TimeBlock, l.Sorted leStart → adjacentOverlap l = false →
      l.Pairwise fun a b => ¬ timeOverlap a b := by
  intro l
  induction l with
  | nil => intro _ _; exact List.Pairwise.nil
  | cons b1 t ih =>
    intro hs h
    cases t with
    | nil => simp
    | cons b2 rest =>
      simp only [adjacentOverlap, Bool.or_eq_false_iff] at h
      obtain ⟨h1, h2⟩ := h
      have hend : endMin b1 ≤ startMin b2 := by
        have := of_decide_eq_false h1
        omega
      refine List.Pairwise.cons ?_ (ih hs.of_cons h2)
      intro x hx hov
      have hle : startMin b2 ≤ startMin x := by
        rcases List.mem_cons.mp hx with rfl | hx2
        · exact Nat.le_refl _
        · exact (List.pairwise_cons.mp hs.of_cons).1 x hx2
      have hlt : startMin x < endMin b1 := hov.2
      omega

theorem adjacentOverlap_false_of_pairwise :
    ∀ l : List TimeBlock, (∀ b ∈ l, startMin b < endMin b) → l.Sorted leStart →
      l.Pairwise (fun a b => ¬ timeOverlap a b) → adjacentOverlap l = false := by
  intro l
  induction l with
  | nil => intro _ _ _; rfl
  | cons b1 t ih =>
    intro hv hs hp
    cases t with
    | nil => rfl
    | cons b2 rest =>
      simp only [adjacentOverlap, Bool.or_eq_false_iff]
      constructor
      · have hno : ¬ timeOverlap b1 b2 :=
          (List.pairwise_cons.mp hp).1 b2 (List.mem_cons_self _ _)
        have hle : startMin b1 ≤ startMin b2 :=
          (List.pairwise_cons.mp hs).1 b2 (List.mem_cons_self _ _)
        have hvb2 : startMin b2 < endMin b2 := hv b2 (by simp)
        simp only [decide_eq_false_iff_not]
        intro hgt
        exact hno ⟨by omega, hgt⟩
      · exact ih (fun b hb => hv b (List.mem_cons_of_mem _ hb)) hs.of_cons hp.of_cons

theorem pairwise_of_adjacentOverlap_sort_false (g : List TimeBlock)
    (h : adjacentOverlap (sortByStart g) = false) :
    g.Pairwise fun a b => ¬ timeOverlap a b := by
  have hperm : List.Perm (sortByStart g) g := List.perm_insertionSort _ _
  have hs : (sortByStart g).Sorted leStart := List.sorted_insertionSort _ _
  exact (hperm.pairwise_iff @timeOverlap_not_symm).mp
    (pairwise_of_adjacentOverlap_false _ hs h)

theorem adjacentOverlap_sort_false_of_pairwise (g : List TimeBlock)
    (hv : ∀ b ∈ g, startMin b < endMin b)
    (h : g.Pairwise fun a b => ¬ timeOverlap a b) :
    adjacentOverlap (sortByStart g) = false := by
  have hperm : List.Perm (sortByStart g) g := List.perm_insertionSort _ _
  have hs : (sortByStart g).Sorted leStart := List.sorted_insertionSort _ _
  refine adjacentOverlap_false_of_pairwise _ ?_ hs
    ((hperm.pairwise_iff @timeOverlap_not_symm).mpr h)
  intro b hb
  exact hv b (hperm.mem_iff.mp hb)

theorem dayGroup_cons_self (b : TimeBlock) (t : List TimeBlock) :
    dayGroup (b :: t) b.dayOfWeek = b :: dayGroup t b.dayOfWeek := by
  simp [dayGroup]

theorem dayGroup_sublist_cons (b : TimeBlock) (t : List TimeBlock) (d : Nat) :
    List.Sublist (dayGroup t d) (dayGroup (b :: t) d) := by
  simp only [dayGroup, List.filter_cons]
  by_cases hbd : (b.dayOfWeek == d) = true
  · rw [if_pos hbd]
    exact List.sublist_cons_self _ _
  · rw [if_neg hbd]

theorem pairwise_dayRel_of_groups :
    ∀ blocks : List TimeBlock,
      (∀ d, (dayGroup blocks d).Pairwise fun a b => ¬ timeOverlap a b) →
      blocks.Pairwise dayRel := by
  intro blocks
  induction blocks with
  | nil => intro _; exact List.Pairwise.nil
  | cons b t ih =>
    intro h
    refine List.Pairwise.cons ?_ (ih fun d => (h d).sublist (dayGroup_sublist_cons b t d))
    intro x hx hday
    have h1 := h b.dayOfWeek
    rw [dayGroup_cons_self] at h1
    refine (List.pairwise_cons.mp h1).1 x ?_
    simp only [dayGroup, List.mem_filter]
    exact ⟨hx, by simp [hday]⟩

theorem groups_pairwise_of_dayRel (blocks : List TimeBlock)
    (h : blocks.Pairwise dayRel) (d : Nat) :
    (dayGroup blocks d).Pairwise fun a b => ¬ timeOverlap a b := by
  have h2 : (dayGroup blocks d).Pairwise dayRel := h.sublist (List.filter_sublist _)
  refine h2.imp_of_mem ?_
  intro a b ha hb hr
  have ha2 : a.dayOfWeek = d := by
    have := (List.mem_filter.mp ha).2
    simpa using this
  have hb2 : b.dayOfWeek = d := by
    have := (List.mem_filter.mp hb).2
    simpa using this
  exact hr (ha2.trans hb2.symm)

theorem pairwise_dayRel_of_hasConflicts_false (blocks : List TimeBlock)
    (h : hasConflicts blocks = false) : blocks.Pairwise dayRel := by
  unfold hasConflicts at h
  rw [List.any_eq_false] at h
  apply pairwise_dayRel_of_groups
  intro d
  by_cases hd : ∃ b ∈ blocks, b.dayOfWeek = d
  · obtain ⟨b, hb, rfl⟩ := hd
    have hb2 : adjacentOverlap (sortByStart (dayGroup blocks b.dayOfWeek)) = false := by
      have := h b hb
      revert this
      cases adjacentOverlap (sortByStart (dayGroup blocks b.dayOfWeek)) <;> simp
    exact pairwise_of_adjacentOverlap_sort_false _ hb2
  · have hnil : dayGroup blocks d = [] := by
      rw [dayGroup, List.filter_eq_nil_iff]
      intro a ha hpa
      exact hd ⟨a, ha, by simpa using hpa⟩
    rw [hnil]
    exact List.Pairwise.nil

theorem hasConflicts_false_of_pairwise_dayRel (blocks : List TimeBlock)
    (hv : ∀ b ∈ blocks, startMin b < endMin b)
    (h : blocks.Pairwise dayRel) : hasConflicts blocks = false := by
  unfold hasConflicts
  rw [List.any_eq_false]
  intro b hb
  have hg : adjacentOverlap (sortByStart (dayGroup blocks b.dayOfWeek)) = false := by
    refine adjacentOverlap_sort_false_of_pairwise _ ?_ (groups_pairwise_of_dayRel _ h _)
    intro x hxg
    exact hv x (List.mem_filter.mp hxg).1
  simp [hg]

theorem specConflict_iff_not_pairwise (blocks : List TimeBlock) :
    SpecConflict blocks ↔ ¬ blocks.Pairwise dayRel := by
  rw [List.pairwise_iff_get]
  constructor
  · rintro ⟨i, j, hne, hday, h1, h2⟩ hall
    rcases lt_or_gt_of_ne hne with hlt | hlt
    · exact hall i j hlt hday ⟨h1, h2⟩
    · exact hall j i hlt hday.symm ⟨h2, h1⟩
  · intro h
    by_contra hnc
    apply h
    intro i j hij hday hov
    exact hnc ⟨i, j, ne_of_lt hij, hday, hov.1, hov.2⟩

theorem firstOverlap_none_iff (d : Nat) :
    ∀ l : List TimeBlock, firstOverlap d l = none ↔ adjacentOverlap l = false := by
  intro l
  induction l with
  | nil => simp [firstOverlap, adjacentOverlap]
  | cons b1 t ih =>
    cases t with
    | nil => simp [firstOverlap, adjacentOverlap]
    | cons b2 rest =>
      by_cases hc : endMin b1 > startMin b2
      · simp [firstOverlap, adjacentOverlap, hc]
      · simp only [firstOverlap, adjacentOverlap, if_neg hc]
        rw [ih]
        have hd : decide (endMin b1 > startMin b2) = false := decide_eq_false hc
        simp [hd]

theorem firstOverlap_some_props (d : Nat) :
    ∀ (l : List TimeBlock) (e : ConflictError), l.Sorted leStart →
      firstOverlap d l = some e →
      e.day = d ∧ e.b1 ∈ l ∧ e.b2 ∈ l ∧ startMin e.b1 ≤ startMin e.b2 ∧
        startMin e.b2 < endMin e.b1 := by
  intro l
  induction l with
  | nil => intro e _ h; simp [firstOverlap] at h
  | cons b1 t ih =>
    intro e hs h
    cases t with
    | nil => simp [firstOverlap] at h
    | cons b2 rest =>
      simp only [firstOverlap] at h
      by_cases hc : endMin b1 > startMin b2
      · rw [if_pos hc] at h
        injection h with h
        subst h
        refine ⟨rfl, List.mem_cons_self _ _,
          List.mem_cons_of_mem _ (List.mem_cons_self _ _), ?_, hc⟩
        exact (List.pairwise_cons.mp hs).1 b2 (List.mem_cons_self _ _)
      · rw [if_neg hc] at h
        obtain ⟨hd, h1, h2, h3, h4⟩ := ih e hs.of_cons h
        exact ⟨hd, List.mem_cons_of_mem _ h1, List.mem_cons_of_mem _ h2, h3, h4⟩

theorem findConflictDays_none_iff (blocks : List TimeBlock) :
    ∀ ds : List Nat, findConflictDays blocks ds = none ↔
      ∀ d ∈ ds, adjacentOverlap (sortByStart (dayGroup blocks d)) = false := by
  intro ds
  induction ds with
  | nil => simp [findConflictDays]
  | cons d ds ih =>
    rw [findConflictDays]
    cases hfo : firstOverlap d (sortByStart (dayGroup blocks d)) with
    | some e =>
      constructor
      · intro h; cases h
      · intro h
        exfalso
        have hnone := (firstOverlap_none_iff d _).mpr (h d (List.mem_cons_self _ _))
        rw [hnone] at hfo
        cases hfo
    | none =>
      rw [ih]
      constructor
      · intro h d2 hd2
        rcases List.mem_cons.mp hd2 with rfl | hd2
        · exact (firstOverlap_none_iff _ _).mp hfo
        · exact h d2 hd2
      · intro h d2 hd2
        exact h d2 (List.mem_cons_of_mem _ hd2)

theorem findConflictDays_some (blocks : List TimeBlock) :
    ∀ (ds : List Nat) (e : ConflictError), findConflictDays blocks ds = some e →
      ∃ d ∈ ds, firstOverlap d (sortByStart (dayGroup blocks d)) = some e := by
  intro ds
  induction ds with
  | nil => intro e h; simp [findConflictDays] at h
  | cons d ds ih =>
    intro e h
    rw [findConflictDays] at h
    cases hfo : firstOverlap d (sortByStart (dayGroup blocks d)) with
    | some e2 =>
      rw [hfo] at h
      injection h with h
      subst h
      exact ⟨d, List.mem_cons_self _ _, hfo⟩
    | none =>
      rw [hfo] at h
      obtain ⟨d2, hd2, hfo2⟩ := ih e h
      exact ⟨d2, List.mem_cons_of_mem _ hd2, hfo2⟩

theorem mem_daysOf (blocks : List TimeBlock) (d : Nat) :
    d ∈ daysOf blocks ↔ ∃ b ∈ blocks, b.dayOfWeek = d := by
  unfold daysOf
  rw [(List.perm_insertionSort _ _).mem_iff, List.mem_dedup, List.mem_map]

theorem findConflict_none_iff (blocks : List TimeBlock) :
    findConflict blocks = none ↔ hasConflicts blocks = false := by
  unfold findConflict hasConflicts
  rw [findConflictDays_none_iff, List.any_eq_false]
  constructor
  · intro h b hb
    have := h b.dayOfWeek ((mem_daysOf _ _).mpr ⟨b, hb, rfl⟩)
    simp [this]
  · intro h d hd
    obtain ⟨b, hb, rfl⟩ := (mem_daysOf _ _).mp hd
    have := h b hb
    revert this
    cases adjacentOverlap (sortByStart (dayGroup blocks b.dayOfWeek)) <;> simp

theorem findConflict_some_props (blocks : List TimeBlock) (e : ConflictError)
    (hv : ∀ b ∈ blocks, startMin b < endMin b)
    (h : findConflict blocks = some e) :
    e.b1 ∈ blocks ∧ e.b2 ∈ blocks ∧ e.b1.dayOfWeek = e.day ∧ e.b2.dayOfWeek = e.day ∧
      startMin e.b1 < endMin e.b2 ∧ startMin e.b2 < endMin e.b1 := by
  obtain ⟨d, _, hfo⟩ := findConflictDays_some blocks _ e h
  have hs : (sortByStart (dayGroup blocks d)).Sorted leStart := List.sorted_insertionSort _ _
  obtain ⟨hday, h1, h2, h3, h4⟩ := firstOverlap_some_props d _ e hs hfo
  have hperm := List.perm_insertionSort leStart (dayGroup blocks d)
  have hb1g : e.b1 ∈ dayGroup blocks d := hperm.mem_iff.mp h1
  have hb2g : e.b2 ∈ dayGroup blocks d := hperm.mem_iff.mp h2
  have hb1 : e.b1 ∈ blocks := (List.mem_filter.mp hb1g).1
  have hb2 : e.b2 ∈ blocks := (List.mem_filter.mp hb2g).1
  have hd1 : e.b1.dayOfWeek = d := by simpa using (List.mem_filter.mp hb1g).2
  have hd2 : e.b2.dayOfWeek = d := by simpa using (List.mem_filter.mp hb2g).2
  have hv2 : startMin e.b2 < endMin e.b2 := hv e.b2 hb2
  subst hday
  exact ⟨hb1, hb2, hd1, hd2, by omega, h4⟩

/-! The claims. -/

/-- C1: for a schedule all of whose time blocks satisfy startTime < endTime,
the hasConflicts virtual answers true exactly when two blocks at distinct
positions share a dayOfWeek and their open time-of-day intervals overlap —
the startTime of each block strictly before the endTime of the other.  In particular
back-to-back blocks (equal end and start) are not a conflict, while an
endTime strictly past the next startTime is. -/
theorem hasConflicts_iff_specConflict (s : Schedule)
    (hv : ∀ b ∈ s.timeBlocks, startMin b < endMin b) :
    s.hasConflicts = true ↔ SpecConflict s.timeBlocks := by
  unfold Schedule.hasConflicts
  rw [specConflict_iff_not_pairwise]
  constructor
  · intro h hpair
    have := hasConflicts_false_of_pairwise_dayRel _ hv hpair
    rw [h] at this
    cases this
  · intro h
    cases hh : hasConflicts s.timeBlocks
    · exact absurd (pairwise_dayRel_of_hasConflicts_false _ hh) h
    · rfl

/-- C1 witness: the Tuesday schedule with blocks 09:00-10:30 and 10:00-11:00
has two distinct overlapping same-day blocks, obtained from the
characterization applied at hasConflicts = true. -/
theorem hasConflicts_iff_specConflict_witness : SpecConflict c1Sched.timeBlocks :=
  (hasConflicts_iff_specConflict c1Sched (by decide)).mp (by decide)

/-- C7: for a schedule all of whose blocks satisfy startTime < endTime,
hasConflicts answers the same on any permutation of the timeBlocks
collection. -/
theorem hasConflicts_order_independent (s1 s2 : Schedule)
    (hv : ∀ b ∈ s1.timeBlocks, startMin b < endMin b)
    (hp : List.Perm s1.timeBlocks s2.timeBlocks) :
    s1.hasConflicts = s2.hasConflicts := by
  unfold Schedule.hasConflicts
  have hv2 : ∀ b ∈ s2.timeBlocks, startMin b < endMin b :=
    fun b hb => hv b (hp.mem_iff.mpr hb)
  have hpair := hp.pairwise_iff @dayRel_symm
  cases hb1 : hasConflicts s1.timeBlocks <;> cases hb2 : hasConflicts s2.timeBlocks
  · rfl
  · have := hasConflicts_false_of_pairwise_dayRel _ hv2
      (hpair.mp (pairwise_dayRel_of_hasConflicts_false _ hb1))
    rw [hb2] at this
    cases this
  · have := hasConflicts_false_of_pairwise_dayRel _ hv
      (hpair.mpr (pairwise_dayRel_of_hasConflicts_false _ hb2))
    rw [hb1] at this
    cases this
  · rfl

/-- C7 witness: the two Thursday blocks in both orders give the same
hasConflicts answer. -/
theorem hasConflicts_order_independent_witness : c7A.hasConflicts = c7B.hasConflicts :=
  hasConflicts_order_independent c7A c7B (by decide) (by decide)

/-- C9: hasConflicts reads only the timeBlocks collection: two schedules
with equal timeBlocks get the same answer whatever their name, description,
isActive, recurrence or exceptions, and toggling isActive never changes the
answer. -/
theorem hasConflicts_blocks_only (s1 s2 : Schedule)
    (h : s1.timeBlocks = s2.timeBlocks) :
    s1.hasConflicts = s2.hasConflicts ∧
      (toggleActive s1).hasConflicts = s1.hasConflicts := by
  constructor
  · unfold Schedule.hasConflicts
    rw [h]
  · rfl

/-- C9 witness: two schedules sharing timeBlocks but differing in every
other field, and a toggle, give the same hasConflicts answer. -/
theorem hasConflicts_blocks_only_witness :
    c9A.hasConflicts = c9B.hasConflicts ∧
      (toggleActive c9A).hasConflicts = c9A.hasConflicts :=
  hasConflicts_blocks_only c9A c9B rfl

/-- C6: removing a blockId that matches no stored block leaves the schedule
unchanged; the removeTimeBlock method is a filter and raises no error. -/
theorem removeTimeBlock_unknown_noop (s : Schedule) (blockId : String)
    (h : ∀ b ∈ s.timeBlocks, b.id ≠ blockId) :
    removeTimeBlock s blockId = s := by
  unfold removeTimeBlock
  have hf : (s.timeBlocks.filter fun b => b.id != blockId) = s.timeBlocks := by
    rw [List.filter_eq_self]
    intro b hb
    simpa using h b hb
  rw [hf]

/-- C6 witness: removing an id not present in the one-block schedule
returns it unchanged. -/
theorem removeTimeBlock_unknown_noop_witness :
    removeTimeBlock c6Sched "nope" = c6Sched :=
  removeTimeBlock_unknown_noop c6Sched "nope" (by decide)

/-- C2: a create request passing the validator gate whose valid blocks
contain a same-day overlap is answered with the conflict payload — naming
two stored same-day overlapping blocks and their day — and no schedule is
created; and the concrete back-to-back request (Monday 09:00-10:00 and
10:00-11:00) succeeds. -/
theorem createSchedule_rejects_overlap (uid : String) (inp : CreateInput)
    (hvalid : validCreateInput inp = true)
    (hv : ∀ b ∈ inp.timeBlocks, startMin b < endMin b)
    (hconf : SpecConflict inp.timeBlocks) :
    (∃ e : ConflictError, createSchedule uid inp = .error (.conflict e) ∧
       e.b1 ∈ inp.timeBlocks ∧ e.b2 ∈ inp.timeBlocks ∧
       e.b1.dayOfWeek = e.day ∧ e.b2.dayOfWeek = e.day ∧
       startMin e.b1 < endMin e.b2 ∧ startMin e.b2 < endMin e.b1) ∧
    createSchedule "u2" backToBackInput = .ok backToBackResult := by
  constructor
  · cases hfc : findConflict inp.timeBlocks with
    | none =>
      exfalso
      have hpair := pairwise_dayRel_of_hasConflicts_false _
        ((findConflict_none_iff _).mp hfc)
      exact (specConflict_iff_not_pairwise _).mp hconf hpair
    | some e =>
      refine ⟨e, ?_, findConflict_some_props _ _ hv hfc⟩
      simp [createSchedule, hvalid, hfc]
  · decide

/-- C2 witness: the overlapping Monday request (09:00-10:00 with
09:30-10:30) creates nothing. -/
theorem createSchedule_rejects_overlap_witness :
    ¬ ∃ s : Schedule, createSchedule "u2" c2Input = .ok s := by
  rintro ⟨s, hs⟩
  obtain ⟨⟨e, he, _⟩, _⟩ :=
    createSchedule_rejects_overlap "u2" c2Input (by decide) (by decide) (by decide)
  rw [he] at hs
  cases hs

/-- C3 counterexample: adding a Monday 09:30-10:30 block to a schedule
already holding Monday 09:00-10:00 is NOT rejected: the route appends the
block and succeeds, although the new block overlaps the existing same-day
block (the resulting schedule even reports hasConflicts). -/
theorem addTimeBlock_overlap_not_rejected :
    addTimeBlock c3Base c3New = .ok c3After ∧
    c3After.hasConflicts = true ∧
    c3New.dayOfWeek = (mkBlock "a" 1 9 0 10 0).dayOfWeek ∧
    startMin (mkBlock "a" 1 9 0 10 0) < endMin c3New ∧
    startMin c3New < endMin (mkBlock "a" 1 9 0 10 0) := by
  refine ⟨by decide, by decide, by decide, by decide, by decide⟩

/-- C3 (amended): addTimeBlock checks only the own fields of the new block and
appends it unconditionally; no overlap check against the existing blocks is
run, so an overlapping same-day block is accepted rather than rejected with
a ConflictError. -/
theorem addTimeBlock_appends_unconditionally (s : Schedule) (b : TimeBlock)
    (hb : validBlockFields b = true) :
    addTimeBlock s b = .ok { s with timeBlocks := s.timeBlocks ++ [b] } := by
  unfold addTimeBlock
  rw [if_pos hb]

/-- C3 witness: the amended statement at the overlapping concrete input. -/
theorem addTimeBlock_appends_unconditionally_witness :
    addTimeBlock c3Base c3New = .ok { c3Base with timeBlocks := c3Base.timeBlocks ++ [c3New] } :=
  addTimeBlock_appends_unconditionally c3Base c3New (by decide)

/-- C4 counterexample: a block running 10:00 to 09:00 (negative duration)
passes every boundary check — the validators only match the HH:MM pattern —
so createSchedule stores it instead of rejecting, and add-time-block
appends it too. -/
theorem zero_duration_block_not_rejected :
    createSchedule "u4" c4Input = .ok c4Created ∧
    endMin c4Bad < startMin c4Bad ∧
    addTimeBlock c4Base c4Bad = .ok { c4Base with timeBlocks := c4Base.timeBlocks ++ [c4Bad] } := by
  refine ⟨by decide, by decide, by decide⟩

/-- C4 (amended): the boundary validation of createSchedule and of
add-time-block checks only day range, HH:MM shape and non-empty subject; it
never compares startTime with endTime, so any syntactically valid block —
zero or negative duration included — is accepted and stored. -/
theorem boundary_accepts_any_times (uid nm : String) (desc : Option String)
    (r : RecurrenceRule) (b : TimeBlock)
    (hb : validBlockFields b = true) (hn : (nm != "") = true) :
    createSchedule uid { name := nm, description := desc, timeBlocks := [b], recurring := r } =
      .ok { userId := uid, name := nm, description := desc, isActive := true,
            timeBlocks := [b], recurring := r, exceptions := [] } ∧
    ∀ s : Schedule, addTimeBlock s b = .ok { s with timeBlocks := s.timeBlocks ++ [b] } := by
  constructor
  · have hvalid : validCreateInput
        { name := nm, description := desc, timeBlocks := [b], recurring := r } = true := by
      simp [validCreateInput, hn, hb, List.isEmpty]
    have hfc : findConflict [b] = none := by
      have hdays : daysOf [b] = [b.dayOfWeek] := by
        simp [daysOf, List.insertionSort, List.orderedInsert]
      show findConflictDays [b] (daysOf [b]) = none
      rw [hdays, findConflictDays]
      have hgroup : dayGroup [b] b.dayOfWeek = [b] := by
        simp [dayGroup]
      rw [hgroup]
      have hsort : sortByStart [b] = [b] := by
        simp [sortByStart, List.insertionSort, List.orderedInsert]
      rw [hsort]
      rfl
    simp [createSchedule, hvalid, hfc]
  · intro s
    unfold addTimeBlock
    rw [if_pos hb]

/-- C4 witness: the amended statement at the 10:00-to-09:00 block. -/
theorem boundary_accepts_any_times_witness :
    createSchedule "u4" c4Input = .ok c4Created :=
  (boundary_accepts_any_times "u4" "Plan" none demoRec c4Bad (by decide) (by decide)).1

/-- C5: an update that supplies a block list containing a same-day overlap
is rejected with the conflict payload, the stored schedule is left exactly
as it was, and the decision depends on the supplied list alone — every
stored schedule gets the very same rejection for this update. -/
theorem updateSchedule_rejects_overlap_atomically (s : Schedule) (u : UpdateInput)
    (tbs : List TimeBlock)
    (htb : u.timeBlocks = some tbs)
    (hvalid : validUpdateInput u = true)
    (hconf : SpecConflict tbs) :
    ∃ e : ConflictError, updateSchedule s u = .error (.conflict e) ∧
      updateEndpoint s u = s ∧
      ∀ s2 : Schedule, updateSchedule s2 u = .error (.conflict e) := by
  cases hfc : findConflict tbs with
  | none =>
    exfalso
    have hpair := pairwise_dayRel_of_hasConflicts_false _
      ((findConflict_none_iff _).mp hfc)
    exact (specConflict_iff_not_pairwise _).mp hconf hpair
  | some e =>
    refine ⟨e, ?_, ?_, ?_⟩
    · simp [updateSchedule, hvalid, htb, hfc]
    · simp [updateEndpoint, updateSchedule, hvalid, htb, hfc]
    · intro s2
      simp [updateSchedule, hvalid, htb, hfc]

/-- C5 witness: the Wednesday schedule survives an update carrying the
overlapping Friday pair untouched. -/
theorem updateSchedule_rejects_overlap_atomically_witness :
    updateEndpoint c5Stored c5Update = c5Stored := by
  obtain ⟨e, _, h2, _⟩ := updateSchedule_rejects_overlap_atomically
    c5Stored c5Update c5Blocks rfl (by decide) (by decide)
  exact h2

/-- C10: an update without a timeBlocks field runs no conflict check: it is
accepted and applied even when the stored blocks already overlap on a day. -/
theorem updateSchedule_skips_conflict_check (s : Schedule) (u : UpdateInput)
    (htb : u.timeBlocks = none)
    (hvalid : validUpdateInput u = true)
    (_hconf : s.hasConflicts = true) :
    updateSchedule s u = .ok (applyUpdate s u) := by
  simp [updateSchedule, hvalid, htb]

/-- C10 witness: flipping isActive on a schedule whose stored Monday blocks
overlap is accepted. -/
theorem updateSchedule_skips_conflict_check_witness :
    updateSchedule c10Stored c10Update = .ok (applyUpdate c10Stored c10Update) :=
  updateSchedule_skips_conflict_check c10Stored c10Update rfl (by decide) (by decide)

theorem occurrenceOn_date_eq (s : Schedule) (d : Nat) (o : Occurrence)
    (h : occurrenceOn s d = some o) : o.date = d := by
  unfold occurrenceOn at h
  split at h
  · split at h
    · split at h
      · cases h
      · injection h with h
        rw [← h]
    · injection h with h
      rw [← h]
  · cases h

/-- C8: the weekly Monday schedule starting day 1 (2024-01-01) with a skip
exception on day 8 (2024-01-08) projects over days 1-15 to occurrences on
days 1 and 15 only; and in general a skip exception suppresses the
occurrence on its date while a modify exception substitutes its
modifiedTimeBlocks on its date. -/
theorem projectOccurrences_respects_exceptions :
    (projectOccurrences c8Sched 1 15).map Occurrence.date = [1, 15] ∧
    (∀ (s : Schedule) (lo hi d : Nat) (ex : ScheduleException),
        s.exceptions.find? (fun x => x.date == d) = some ex →
        ex.action = ExAction.skip →
        ∀ o ∈ projectOccurrences s lo hi, o.date ≠ d) ∧
    (∀ (s : Schedule) (lo hi d : Nat) (ex : ScheduleException),
        s.exceptions.find? (fun x => x.date == d) = some ex →
        ex.action = ExAction.modify →
        ∀ o ∈ projectOccurrences s lo hi, o.date = d → o.blocks = ex.modifiedTimeBlocks) := by
  refine ⟨by decide, ?_, ?_⟩
  · intro s lo hi d ex hfind hskip o ho hod
    obtain ⟨d2, _, hocc⟩ := List.mem_filterMap.mp ho
    have hdd : d2 = d := by rw [← occurrenceOn_date_eq s d2 o hocc, hod]
    rw [hdd] at hocc
    unfold occurrenceOn at hocc
    split at hocc
    · split at hocc
      next ex2 heq =>
        rw [hfind] at heq
        injection heq with heq
        subst heq
        rw [hskip] at hocc
        exact Option.noConfusion hocc
      next heq =>
        rw [hfind] at heq
        cases heq
    · cases hocc
  · intro s lo hi d ex hfind hmod o ho hod
    obtain ⟨d2, _, hocc⟩ := List.mem_filterMap.mp ho
    have hdd : d2 = d := by rw [← occurrenceOn_date_eq s d2 o hocc, hod]
    rw [hdd] at hocc
    unfold occurrenceOn at hocc
    split at hocc
    · split at hocc
      next ex2 heq =>
        rw [hfind] at heq
        injection heq with heq
        subst heq
        rw [hmod] at hocc
        have hocc2 : some { date := d, blocks := ex.modifiedTimeBlocks } = some o := hocc
        injection hocc2 with hocc2
        rw [← hocc2]
      next heq =>
        rw [hfind] at heq
        cases heq
    · cases hocc

/-- C8 witness: no projected occurrence of the scenario schedule falls on
the skipped day 8. -/
theorem projectOccurrences_respects_exceptions_witness :
    ¬ ∃ o ∈ projectOccurrences c8Sched 1 15, o.date = 8 := by
  rintro ⟨o, ho, hod⟩
  exact projectOccurrences_respects_exceptions.2.1 c8Sched 1 15 8 c8Skip
    (by decide) rfl o ho hod

end SmartStudy
